import Mathlib

/-!
Verification of `fritz_cleanup_fritzconnection.py`: a shallow embedding of
its heuristic service-resolution / record-extraction / staleness /
termination pipeline, together with proofs of the specified properties.

Python values flowing through the pipeline (TR-064 responses decoded by
`fritzconnection`) are modelled by the tagged variant `Value`
(null / bool / int / string / ordered mapping / sequence).  Python machine
floats do not occur in the modelled fragment except as `time.time()`,
which we model as integer epoch seconds (the script only ever uses the
integer part of ages).
-/

namespace FritzCleanup

/-- Tagged variant for arbitrary nested protocol response data
(Python `None` / `bool` / `int` / `str` / `dict` / `list`). -/
inductive Value where
  | vnull : Value
  | vbool (b : Bool) : Value
  | vnum (n : Int) : Value
  | vstr (s : String) : Value
  | vmap (kvs : List (String × Value)) : Value
  | vlist (xs : List Value) : Value

/-- A candidate connection record: an ordered field-name → value mapping
(a Python `dict` surfaced from a `Value` mapping node). -/
abbrev Rec := List (String × Value)

/-- The fixed hint-key set of `find_conn_nodes` (source lines 98-99). -/
def hint_keys : List String :=
  ["RemoteHost", "RemotePort", "Protocol", "BytesSent", "BytesReceived",
   "LastActivity", "LastActive", "ConnectionID", "Id", "ID", "State"]

/-- Model of `keys & hint_keys` being non-empty (source line 100): some key of the
mapping is (exactly, case-sensitively) a hint key. -/
def hitsHints (kvs : Rec) : Bool :=
  kvs.any (fun kv => hint_keys.contains kv.1)

mutual

/-- Model of `find_conn_nodes` (source lines 93-108): recursively mine
connection-shaped records out of a `Value` tree.  A mapping whose key set
intersects the hint-key set is classified as one record and not recursed
into; otherwise its values are searched; sequences are searched
elementwise; scalars contribute nothing. -/
def find_conn_nodes : Value → List Rec
  | Value.vmap kvs => if hitsHints kvs then [kvs] else find_conn_nodes_vals kvs
  | Value.vlist xs => find_conn_nodes_list xs
  | _ => []

/-- The `for v in obj.values(): found.extend(find_conn_nodes(v))` loop. -/
def find_conn_nodes_vals : Rec → List Rec
  | [] => []
  | (_, v) :: rest => find_conn_nodes v ++ find_conn_nodes_vals rest

/-- The `for it in obj: found.extend(find_conn_nodes(it))` loop. -/
def find_conn_nodes_list : List Value → List Rec
  | [] => []
  | v :: rest => find_conn_nodes v ++ find_conn_nodes_list rest

end

mutual

/-- Model of `find_conn_nodes2` (source lines 119-133): the verbatim second copy of
the extractor used on the `act not in svc.actions` branch. -/
def find_conn_nodes2 : Value → List Rec
  | Value.vmap kvs => if hitsHints kvs then [kvs] else find_conn_nodes2_vals kvs
  | Value.vlist xs => find_conn_nodes2_list xs
  | _ => []

/-- Values loop of `find_conn_nodes2`. -/
def find_conn_nodes2_vals : Rec → List Rec
  | [] => []
  | (_, v) :: rest => find_conn_nodes2 v ++ find_conn_nodes2_vals rest

/-- Sequence loop of `find_conn_nodes2`. -/
def find_conn_nodes2_list : List Value → List Rec
  | [] => []
  | v :: rest => find_conn_nodes2 v ++ find_conn_nodes2_list rest

end

mutual

/-- The two textually identical extractor copies agree. -/
theorem find_conn_nodes2_eq (t : Value) : find_conn_nodes2 t = find_conn_nodes t := by
  match t with
  | Value.vnull => rfl
  | Value.vbool b => rfl
  | Value.vnum n => rfl
  | Value.vstr s => rfl
  | Value.vmap kvs =>
      rw [find_conn_nodes2, find_conn_nodes, find_conn_nodes2_vals_eq kvs]
  | Value.vlist xs =>
      rw [find_conn_nodes2, find_conn_nodes, find_conn_nodes2_list_eq xs]

theorem find_conn_nodes2_vals_eq (kvs : Rec) :
    find_conn_nodes2_vals kvs = find_conn_nodes_vals kvs := by
  match kvs with
  | [] => rfl
  | (k, v) :: rest =>
      rw [find_conn_nodes2_vals, find_conn_nodes_vals, find_conn_nodes2_eq v,
        find_conn_nodes2_vals_eq rest]

theorem find_conn_nodes2_list_eq (xs : List Value) :
    find_conn_nodes2_list xs = find_conn_nodes_list xs := by
  match xs with
  | [] => rfl
  | v :: rest =>
      rw [find_conn_nodes2_list, find_conn_nodes_list, find_conn_nodes2_eq v,
        find_conn_nodes2_list_eq rest]

end

theorem hitsHints_append (l1 l2 : Rec) :
    hitsHints (l1 ++ l2) = (hitsHints l1 || hitsHints l2) := by
  simp [hitsHints, List.any_append]

theorem find_conn_nodes_vals_append (l1 l2 : Rec) :
    find_conn_nodes_vals (l1 ++ l2)
      = find_conn_nodes_vals l1 ++ find_conn_nodes_vals l2 := by
  induction l1 with
  | nil => simp [find_conn_nodes_vals]
  | cons kv rest ih =>
      cases kv
      simp [find_conn_nodes_vals, ih]

theorem find_conn_nodes_list_append (l1 l2 : List Value) :
    find_conn_nodes_list (l1 ++ l2)
      = find_conn_nodes_list l1 ++ find_conn_nodes_list l2 := by
  induction l1 with
  | nil => simp [find_conn_nodes_list]
  | cons v rest ih => simp [find_conn_nodes_list, ih]

mutual

/-- A value is clean when no mapping anywhere inside it (itself included)
intersects the hint-key set. -/
def cleanVal : Value → Bool
  | Value.vmap kvs => !hitsHints kvs && cleanMap kvs
  | Value.vlist xs => cleanList xs
  | _ => true

/-- All values of a mapping are clean. -/
def cleanMap : Rec → Bool
  | [] => true
  | (_, v) :: rest => cleanVal v && cleanMap rest

/-- All elements of a sequence are clean. -/
def cleanList : List Value → Bool
  | [] => true
  | v :: rest => cleanVal v && cleanList rest

end

mutual

/-- The extractor finds nothing inside a clean value. -/
theorem cleanVal_find (t : Value) (h : cleanVal t = true) : find_conn_nodes t = [] := by
  match t with
  | Value.vnull => rfl
  | Value.vbool b => rfl
  | Value.vnum n => rfl
  | Value.vstr s => rfl
  | Value.vmap kvs =>
      simp only [cleanVal, Bool.and_eq_true, Bool.not_eq_true'] at h
      simp [find_conn_nodes, h.1, cleanMap_find kvs h.2]
  | Value.vlist xs =>
      simp only [cleanVal] at h
      simp [find_conn_nodes, cleanList_find xs h]

theorem cleanMap_find (kvs : Rec) (h : cleanMap kvs = true) :
    find_conn_nodes_vals kvs = [] := by
  match kvs with
  | [] => rfl
  | (k, v) :: rest =>
      simp only [cleanMap, Bool.and_eq_true] at h
      simp [find_conn_nodes_vals, cleanVal_find v h.1, cleanMap_find rest h.2]

theorem cleanList_find (xs : List Value) (h : cleanList xs = true) :
    find_conn_nodes_list xs = [] := by
  match xs with
  | [] => rfl
  | v :: rest =>
      simp only [cleanList, Bool.and_eq_true] at h
      simp [find_conn_nodes_list, cleanVal_find v h.1, cleanList_find rest h.2]

end

/-- One layer of surrounding tree structure: either a surrounding mapping
(with the sibling entries before and after, and the key under which the
hole sits) or a surrounding sequence (with the sibling elements). -/
inductive Frame where
  | fmap (pre : Rec) (k : String) (post : Rec) : Frame
  | flist (pre : List Value) (post : List Value) : Frame

/-- Plug a value into a nest of frames, innermost frame first. -/
def plug : Value → List Frame → Value
  | v, [] => v
  | v, Frame.fmap pre k post :: fs => plug (Value.vmap (pre ++ (k, v) :: post)) fs
  | v, Frame.flist pre post :: fs => plug (Value.vlist (pre ++ v :: post)) fs

/-- A frame is benign when the wrapper mapping it builds does not itself
intersect the hint-key set and all sibling subtrees are clean, so that the
plugged subtree is the only possible source of records. -/
def frameOK : Frame → Bool
  | Frame.fmap pre k post =>
      !hint_keys.contains k && !hitsHints pre && !hitsHints post &&
        cleanMap pre && cleanMap post
  | Frame.flist pre post => cleanList pre && cleanList post

/-- All frames of a context are benign. -/
def framesOK (fs : List Frame) : Bool := fs.all frameOK

/-- Extraction looks through a benign context. -/
theorem find_conn_nodes_plug (fs : List Frame) (h : framesOK fs = true) (v : Value) :
    find_conn_nodes (plug v fs) = find_conn_nodes v := by
  induction fs generalizing v with
  | nil => rfl
  | cons f rest ih =>
      have hf : frameOK f = true ∧ framesOK rest = true := by
        simpa [framesOK, Bool.and_eq_true] using h
      cases f with
      | fmap pre k post =>
          simp only [plug]
          rw [ih hf.2]
          have hc : (!hint_keys.contains k && !hitsHints pre && !hitsHints post &&
              cleanMap pre && cleanMap post) = true := hf.1
          simp only [Bool.and_eq_true, Bool.not_eq_true'] at hc
          obtain ⟨⟨⟨⟨hk, hpre⟩, hpost⟩, hcp⟩, hcq⟩ := hc
          have hh : hitsHints (pre ++ (k, v) :: post) = false := by
            have hcons : hitsHints ((k, v) :: post) = false := by
              simp only [hitsHints, List.any_cons, hk, Bool.false_or]
              simpa [hitsHints] using hpost
            rw [hitsHints_append, hpre, hcons]
            rfl
          rw [find_conn_nodes]
          simp only [hh, Bool.false_eq_true, if_false]
          rw [find_conn_nodes_vals_append]
          simp [find_conn_nodes_vals, cleanMap_find pre hcp,
            cleanMap_find post hcq]
      | flist pre post =>
          simp only [plug]
          rw [ih hf.2]
          have hc : (cleanList pre && cleanList post) = true := hf.1
          simp only [Bool.and_eq_true] at hc
          rw [find_conn_nodes, find_conn_nodes_list_append]
          simp [find_conn_nodes_list, cleanList_find pre hc.1,
            cleanList_find post hc.2]

/-- ASCII lower-casing, modelling Python `str.lower()` on the ASCII
service names and fragments involved. -/
def lowerStr (s : String) : String := String.mk (s.data.map Char.toLower)

/-- Whether `needle` is a leading segment of `hay`. -/
def matchHead : List Char → List Char → Bool
  | [], _ => true
  | _ :: _, [] => false
  | a :: as, b :: bs => a == b && matchHead as bs

/-- Whether `needle` occurs contiguously somewhere in `hay` (Python `in` on
strings). -/
def containsSeq (needle : List Char) : List Char → Bool
  | [] => needle.isEmpty
  | hay@(_ :: rest) => matchHead needle hay || containsSeq needle rest

/-- Test `frag.lower() in svcname.lower()` (source line 29). -/
def matchesCI (svcname frag : String) : Bool :=
  containsSeq (lowerStr frag).data (lowerStr svcname).data

/-- Model of `try_service` (source lines 22-36): iterate the ranked fragments; for
each fragment scan the exposed service names in enumeration order and
return the first name containing the fragment case-insensitively.
(The transport-side `FritzService` constructor is modelled as total; its
per-name exception fallback never fires in the modelled fragment.) -/
def try_service (services : List String) : List String → Option String
  | [] => none
  | frag :: rest =>
      match services.find? (fun s => matchesCI s frag) with
      | some svc => some svc
      | none => try_service services rest

theorem try_service_eq (S F : List String) :
    try_service S F
      = (F.find? (fun f => S.any (fun s => matchesCI s f))).bind
          (fun f => S.find? (fun s => matchesCI s f)) := by
  induction F with
  | nil => rfl
  | cons f rest ih =>
      cases hm : S.find? (fun s => matchesCI s f) with
      | some svc =>
          have hmem := List.mem_of_find?_eq_some hm
          have hp := List.find?_some hm
          have hany : S.any (fun s => matchesCI s f) = true :=
            List.any_eq_true.mpr ⟨svc, hmem, hp⟩
          rw [try_service, hm]
          simp [List.find?_cons, hany, hm]
      | none =>
          have hany : S.any (fun s => matchesCI s f) = false := by
            refine Bool.eq_false_iff.mpr ?_
            simp only [ne_eq, List.any_eq_true, not_exists]
            rintro x ⟨hx, hpx⟩
            exact absurd hpx (List.find?_eq_none.mp hm x hx)
          rw [try_service, hm]
          simp only [List.find?_cons, hany]
          exact ih

example :
    try_service ["X1", "DeviceInfo1", "WANIPConnection1"] ["WANIPConnection", "DeviceInfo"]
      = some "WANIPConnection1" := rfl

example :
    try_service ["X1", "DeviceInfo1"] ["WANIPConnection", "DeviceInfo"]
      = some "DeviceInfo1" := rfl

/-- Python truthiness (`bool(x)`): `None`, `False`, `0`, `""` and empty
containers are falsy. -/
def truthy : Value → Bool
  | Value.vnull => false
  | Value.vbool b => b
  | Value.vnum n => n != 0
  | Value.vstr s => !s.isEmpty
  | Value.vmap kvs => !kvs.isEmpty
  | Value.vlist xs => !xs.isEmpty

/-- Python `field in c` on a dict, modelled on the ordered field list. -/
def hasField (c : Rec) (f : String) : Bool := c.any (fun kv => kv.1 == f)

/-- Python `c.get(field)`: the value of the (first) binding of the field,
or `none` when absent. -/
def dictGet (c : Rec) (f : String) : Option Value :=
  (c.find? (fun kv => kv.1 == f)).map (fun kv => kv.2)

/-- Value of an ASCII digit. -/
def digitVal (c : Char) : Option Nat :=
  if c.isDigit then some (c.toNat - 48) else none

/-- Accumulate a digit run; fails at the first non-digit. -/
def digitsToNat (acc : Nat) : List Char → Option Nat
  | [] => some acc
  | c :: cs =>
      match digitVal c with
      | some d => digitsToNat (acc * 10 + d) cs
      | none => none

/-- Strip leading and trailing whitespace. -/
def trimWs (cs : List Char) : List Char :=
  ((cs.dropWhile Char.isWhitespace).reverse.dropWhile Char.isWhitespace).reverse

/-- Python `int(s)` on a string: optional surrounding whitespace, optional
sign, then a non-empty digit run (digit-group underscores are not
modelled). -/
def strToInt (s : String) : Option Int :=
  match trimWs s.data with
  | [] => none
  | '-' :: cs => if cs.isEmpty then none else (digitsToNat 0 cs).map (fun n => -(n : Int))
  | '+' :: cs => if cs.isEmpty then none else (digitsToNat 0 cs).map (fun n => (n : Int))
  | cs => (digitsToNat 0 cs).map (fun n => (n : Int))

/-- Python `int(x)` as used on source line 44: succeeds on ints, bools
(`int(True) = 1`) and integer-shaped strings; raises (here: `none`) on
everything else. -/
def pyToInt : Value → Option Int
  | Value.vnum n => some n
  | Value.vbool b => some (if b then 1 else 0)
  | Value.vstr s => strToInt s
  | _ => none

/-- The six fields set by the `strptime` directives of the formats on
source line 47 (`strptime` defaults: 1900-01-01 00:00:00). -/
structure TimeParts where
  year : Nat
  month : Nat
  day : Nat
  hour : Nat
  minute : Nat
  second : Nat

/-- Exactly four digits (the `%Y` directive). -/
def parse4Digits : List Char → Option (Nat × List Char)
  | c1 :: c2 :: c3 :: c4 :: rest =>
      match digitVal c1, digitVal c2, digitVal c3, digitVal c4 with
      | some d1, some d2, some d3, some d4 =>
          some (((d1 * 10 + d2) * 10 + d3) * 10 + d4, rest)
      | _, _, _, _ => none
  | _ => none

/-- One or two digits, two-digit reading preferred, value clamped to
`[lo, hi]` (the `%m`/`%d`/`%H`/`%M`/`%S` directives, mirroring CPython's
alternation regexes). -/
def parse2or1 (lo hi : Nat) : List Char → Option (Nat × List Char)
  | c1 :: c2 :: rest =>
      (match digitVal c1, digitVal c2 with
      | some d1, some d2 =>
          let v := d1 * 10 + d2
          if lo ≤ v ∧ v ≤ hi then some (v, rest)
          else if lo ≤ d1 ∧ d1 ≤ hi then some (d1, c2 :: rest) else none
      | some d1, none => if lo ≤ d1 ∧ d1 ≤ hi then some (d1, c2 :: rest) else none
      | none, _ => none)
  | [c1] =>
      (match digitVal c1 with
      | some d1 => if lo ≤ d1 ∧ d1 ≤ hi then some (d1, []) else none
      | none => none)
  | [] => none

/-- Interpret one `%`-directive at the head of the input. -/
def applyDir (dir : Char) (tm : TimeParts) (cs : List Char) :
    Option (TimeParts × List Char) :=
  if dir = 'Y' then (parse4Digits cs).map (fun p => ({ tm with year := p.1 }, p.2))
  else if dir = 'm' then (parse2or1 1 12 cs).map (fun p => ({ tm with month := p.1 }, p.2))
  else if dir = 'd' then (parse2or1 1 31 cs).map (fun p => ({ tm with day := p.1 }, p.2))
  else if dir = 'H' then (parse2or1 0 23 cs).map (fun p => ({ tm with hour := p.1 }, p.2))
  else if dir = 'M' then (parse2or1 0 59 cs).map (fun p => ({ tm with minute := p.1 }, p.2))
  else if dir = 'S' then (parse2or1 0 61 cs).map (fun p => ({ tm with second := p.1 }, p.2))
  else none

/-- Run a format string against the input; literal characters must match
exactly and both must be exhausted together. -/
def runFmt : List Char → List Char → TimeParts → Option TimeParts
  | [], [], tm => some tm
  | [], _ :: _, _ => none
  | '%' :: dir :: fr, cs, tm =>
      (match applyDir dir tm cs with
      | some (tm2, cs2) => runFmt fr cs2 tm2
      | none => none)
  | ['%'], _, _ => none
  | _ :: _, [], _ => none
  | c :: fr, d :: cs, tm => if c = d then runFmt fr cs tm else none

/-- Gregorian leap year. -/
def isLeap (y : Nat) : Bool := y % 4 == 0 && (y % 100 != 0 || y % 400 == 0)

/-- Length of a month. -/
def daysInMonth (y m : Nat) : Nat :=
  if m = 2 then (if isLeap y then 29 else 28)
  else if m = 4 ∨ m = 6 ∨ m = 9 ∨ m = 11 then 30 else 31

/-- Days between 1970-01-01 and y-m-d in the proleptic Gregorian
calendar (`y ≥ 1`). -/
def daysFromCivil (y m d : Nat) : Int :=
  let yy := if m ≤ 2 then y - 1 else y
  let era := yy / 400
  let yoe := yy % 400
  let mp := (m + 9) % 12
  let doy := (153 * mp + 2) / 5 + (d - 1)
  let doe := yoe * 365 + yoe / 4 - yoe / 100 + doy
  ((era * 146097 + doe : Nat) : Int) - 719468

/-- The `datetime` constructor's range checks (year ≥ 1, real calendar
day, seconds ≤ 59 — `datetime` has no leap seconds). -/
def validParts (tm : TimeParts) : Bool :=
  decide (1 ≤ tm.year) && decide (1 ≤ tm.month) && decide (tm.month ≤ 12) &&
    decide (1 ≤ tm.day) && decide (tm.day ≤ daysInMonth tm.year tm.month) &&
    decide (tm.hour ≤ 23) && decide (tm.minute ≤ 59) && decide (tm.second ≤ 59)

/-- Model of `int(dt.timestamp())` with local time modelled as UTC. -/
def epochOf (tm : TimeParts) : Int :=
  daysFromCivil tm.year tm.month tm.day * 86400
    + ((tm.hour * 3600 + tm.minute * 60 + tm.second : Nat) : Int)

/-- Model of `datetime.datetime.strptime(s, fmt)` followed by
`int(dt.timestamp())`; `none` models the raised `ValueError`. -/
def strptimeTs (s fmt : String) : Option Int :=
  match runFmt fmt.data s.data ⟨1900, 1, 1, 0, 0, 0⟩ with
  | some tm => if validParts tm then some (epochOf tm) else none
  | none => none

/-- The fixed, ordered format list of source line 47. -/
def fmts : List String :=
  ["%Y-%m-%dT%H:%M:%S", "%d.%m.%Y %H:%M:%S", "%Y-%m-%d %H:%M:%S"]

/-- The `for f in fmts` loop of source lines 48-53: first successful
format wins. -/
def tryFmtList (s : String) : List String → Option Int
  | [] => none
  | f :: rest =>
      match strptimeTs s f with
      | some t => some t
      | none => tryFmtList s rest

/-- Model of `parse_time_str` (source lines 38-54): `None` for absent input, then
integer parse, then the ordered date formats, else `None`.  A non-string,
non-integer value falls through `int()` and makes `strptime` raise, so it
also yields `None`. -/
def parse_time_str : Option Value → Option Int
  | none => none
  | some Value.vnull => none
  | some v =>
      match pyToInt v with
      | some n => some n
      | none =>
          match v with
          | Value.vstr s => tryFmtList s fmts
          | _ => none

example : parse_time_str (some (Value.vstr "123")) = some 123 := rfl
example : parse_time_str (some (Value.vnum (-5))) = some (-5) := rfl
example : parse_time_str (some (Value.vstr "2021-01-01 00:00:00")) = some 1609459200 := rfl
example : parse_time_str (some (Value.vstr "2021-01-01T00:00:01")) = some 1609459201 := rfl
example : parse_time_str (some (Value.vstr "1.1.2021 00:00:00")) = some 1609459200 := rfl
example : parse_time_str (some (Value.vstr "not-a-date")) = none := rfl
example : parse_time_str (some Value.vnull) = none := rfl
example : parse_time_str none = none := rfl

/-- The timestamp-field priority list of source line 166. -/
def time_fields : List String :=
  ["LastActivity", "LastActive", "LastSeen", "Time", "Timestamp"]

/-- The `for field in (...): if field in c: last = c.get(field); break`
loop of source lines 165-169. -/
def pickTimeField (c : Rec) : List String → Option Value
  | [] => none
  | f :: fs => if hasField c f then dictGet c f else pickTimeField c fs

/-- One iteration of the staleness loop (source lines 163-178): resolve
the timestamp field, parse it, skip on failure, else keep the record with
timestamp and age when `age ≥ THRESHOLD_SECONDS`. -/
def staleCheck (threshold now : Int) (c : Rec) : Option (Rec × Int × Int) :=
  match parse_time_str (pickTimeField c time_fields) with
  | none => none
  | some ts =>
      let age := now - ts
      if threshold ≤ age then some (c, ts, age) else none

/-- The whole `to_kill` computation over the deduplicated records. -/
def stalenessEval (threshold now : Int) (cs : List Rec) : List (Rec × Int × Int) :=
  cs.filterMap (staleCheck threshold now)

mutual

/-- Python `str(v)`. -/
def pyStr : Value → String
  | Value.vnull => "None"
  | Value.vbool true => "True"
  | Value.vbool false => "False"
  | Value.vnum n => toString n
  | Value.vstr s => s
  | Value.vmap kvs => "\x7b" ++ pyReprMap kvs ++ "\x7d"
  | Value.vlist xs => "[" ++ pyReprList xs ++ "]"

/-- Python `repr(v)` (used for elements inside containers). -/
def pyRepr : Value → String
  | Value.vnull => "None"
  | Value.vbool true => "True"
  | Value.vbool false => "False"
  | Value.vnum n => toString n
  | Value.vstr s => "\x27" ++ s ++ "\x27"
  | Value.vmap kvs => "\x7b" ++ pyReprMap kvs ++ "\x7d"
  | Value.vlist xs => "[" ++ pyReprList xs ++ "]"

/-- Comma-joined `repr` of dict items. -/
def pyReprMap : Rec → String
  | [] => ""
  | [(k, v)] => "\x27" ++ k ++ "\x27: " ++ pyRepr v
  | (k, v) :: rest => "\x27" ++ k ++ "\x27: " ++ pyRepr v ++ ", " ++ pyReprMap rest

/-- Comma-joined `repr` of list items. -/
def pyReprList : List Value → String
  | [] => ""
  | [v] => pyRepr v
  | v :: rest => pyRepr v ++ ", " ++ pyReprList rest

end

/-- Lexicographic comparison of char sequences by code point, modelling
Python's `≤` on strings. -/
def lexLeChars : List Char → List Char → Bool
  | [], _ => true
  | _ :: _, [] => false
  | a :: as, b :: bs =>
      if a < b then true
      else if b < a then false
      else lexLeChars as bs

/-- Python's lexicographic tuple order on `(fieldName, stringifiedValue)`
pairs, as used by `sorted` on source line 153: compare the field names by
code point, break ties on the stringified values. -/
def pairLeB (a b : String × String) : Bool :=
  if a.1.data = b.1.data then lexLeChars a.2.data b.2.data
  else lexLeChars a.1.data b.1.data

/-- Relation form of `pairLeB`. -/
def pairLe (a b : String × String) : Prop := pairLeB a b = true

instance : DecidableRel pairLe := fun a b =>
  instDecidableEqBool (pairLeB a b) true

/-- Model of `key = tuple(sorted([(k, str(v)) for k, v in c.items()]))`
(source line 153). -/
def connKey (c : Rec) : List (String × String) :=
  List.insertionSort pairLe (c.map (fun kv => (kv.1, pyStr kv.2)))

/-- The dedup loop of source lines 150-158, with the `seen` set modelled
as the list of keys added so far. -/
def dedupAux (seen : List (List (String × String))) : List Rec → List Rec
  | [] => []
  | c :: rest =>
      if connKey c ∈ seen then dedupAux seen rest
      else c :: dedupAux (connKey c :: seen) rest

/-- The Deduplicator (source lines 149-158). -/
def dedupRecords (cs : List Rec) : List Rec := dedupAux [] cs

/-- The candidate read actions of source lines 79-82. -/
def actions_to_try : List String :=
  ["GetActiveConnections", "GetGenericConnections", "GetConnectionList",
   "GetActivePortMappings", "GetPortMappingNumberOfEntries"]

/-- Model of `svc.actions` per the transport contract: action name →
declared parameter names (possibly empty = unknown). -/
abbrev SvcActions := List (String × List String)

/-- Python `svc.actions.get(a)`: declared parameter names of an action,
`none` when the action is not in the service's known action set. -/
def lookupParams (svcActs : SvcActions) (a : String) : Option (List String) :=
  (svcActs.find? (fun p => p.1 == a)).map (fun p => p.2)

/-- The ActionCollector loop (source lines 84-136): for every candidate
action, attempt a parameterless invocation — on either branch of the
`act in svc.actions` test — extract records from a successful result with
the respective extractor copy, ignore failures, and accumulate in
candidate order.  Also returns the list of attempted invocations. -/
def collectRecords (svcActs : SvcActions) (invoke : String → Option Value) :
    List String → List Rec × List String
  | [] => ([], [])
  | act :: rest =>
      let here :=
        if (lookupParams svcActs act).isSome then
          match invoke act with
          | some res => find_conn_nodes res
          | none => []
        else
          match invoke act with
          | some res => find_conn_nodes2 res
          | none => []
      let r := collectRecords svcActs invoke rest
      (here ++ r.1, act :: r.2)

/-- The candidate close actions of source line 195. -/
def close_actions : List String :=
  ["DeleteConnection", "CloseConnection", "ForceCloseConnection", "DestroyConnection"]

/-- The parameter-name probe order of source line 203. -/
def id_fields_try : List String := ["ConnectionID", "ID", "Id"]

/-- Python `a or b` on optional values: `a` when present and truthy,
otherwise `b`. -/
def pyOr (a b : Option Value) : Option Value :=
  match a with
  | some v => if truthy v then some v else b
  | none => b

/-- Python `a or dflt` where `dflt` is a final literal default. -/
def pyOrD (a : Option Value) (dflt : Value) : Value :=
  match a with
  | some v => if truthy v then v else dflt
  | none => dflt

/-- Model of `connid = c.get("ConnectionID") or c.get("Id") or c.get("ID")`
(source line 187). -/
def resolveConnId (c : Rec) : Option Value :=
  pyOr (dictGet c "ConnectionID") (pyOr (dictGet c "Id") (dictGet c "ID"))

/-- Model of `remote = c.get("RemoteHost") or c.get("Description") or ""`
(source line 188). -/
def resolveRemote (c : Rec) : Value :=
  pyOrD (dictGet c "RemoteHost") (pyOrD (dictGet c "Description") (Value.vstr ""))

/-- Model of `port = c.get("RemotePort") or c.get("Port") or ""`
(source line 189). -/
def resolvePort (c : Rec) : Value :=
  pyOrD (dictGet c "RemotePort") (pyOrD (dictGet c "Port") (Value.vstr ""))

/-- The `for key in ("ConnectionID", "ID", "Id")` loop of source lines
203-205: bind the identifier under every declared name among the three. -/
def addIdKeys (params : List String) (cv : Value) : List String → List (String × Value)
  | [] => []
  | k :: ks =>
      if params.contains k then (k, cv) :: addIdKeys params cv ks
      else addIdKeys params cv ks

/-- The endpoint fallback of source lines 209-214. -/
def fallbackEndpointArgs (remote port : Value) : List (String × Value) :=
  (if truthy remote then [("RemoteHost", remote)] else [])
    ++ (if truthy port then [("RemotePort", port)] else [])

/-- Argument construction for one close action (source lines 199-214). -/
def buildArgs (params : List String) (connid : Option Value) (remote port : Value) :
    List (String × Value) :=
  match connid with
  | some cv =>
      if truthy cv then
        let args := addIdKeys params cv id_fields_try
        if args.isEmpty then [("ConnectionID", cv)] else args
      else fallbackEndpointArgs remote port
  | none => fallbackEndpointArgs remote port

/-- Per-stale-connection termination outcome. -/
inductive Outcome where
  | closedVia (action : String) : Outcome
  | wouldClose : Outcome
  | notClosed : Outcome
deriving DecidableEq

/-- A remote invocation sent to the transport: action name and bound
parameters. -/
abbrev CallRec := String × List (String × Value)

/-- The live-mode close loop of source lines 193-221: iterate candidate
close actions in ranked order, skip undeclared ones, build arguments,
invoke; first success stops the loop.  Also returns every invocation
sent (failing ones included). -/
def attemptClose (svcActs : SvcActions)
    (invoke : String → List (String × Value) → Bool) (c : Rec) :
    List String → Outcome × List CallRec
  | [] => (Outcome.notClosed, [])
  | a :: rest =>
      match lookupParams svcActs a with
      | some params =>
          let args := buildArgs params (resolveConnId c) (resolveRemote c) (resolvePort c)
          if invoke a args then (Outcome.closedVia a, [(a, args)])
          else
            let r := attemptClose svcActs invoke c rest
            (r.1, (a, args) :: r.2)
      | none => attemptClose svcActs invoke c rest

/-- The per-connection report printed on source line 190 (remote
endpoint, resolved identifier, timestamp, age). -/
structure Report where
  remote : Value
  port : Value
  connid : Option Value
  ts : Int
  age : Int

/-- Build the line-190 report for one stale connection. -/
def mkReport (c : Rec) (ts age : Int) : Report :=
  ⟨resolveRemote c, resolvePort c, resolveConnId c, ts, age⟩

/-- One iteration of the termination loop (source lines 185-223): always
report; invoke close actions only when not in dry-run. -/
def terminateOne (dryRun : Bool) (svcActs : SvcActions)
    (invoke : String → List (String × Value) → Bool) (closeActs : List String)
    (s : Rec × Int × Int) : Report × Outcome × List CallRec :=
  let rep := mkReport s.1 s.2.1 s.2.2
  if dryRun then (rep, Outcome.wouldClose, [])
  else
    let r := attemptClose svcActs invoke s.1 closeActs
    (rep, r.1, r.2)

/-- The whole ConnectionTerminator loop over `to_kill`, collecting the
per-connection reports and outcomes and every remote invocation sent. -/
def terminateAll (dryRun : Bool) (svcActs : SvcActions)
    (invoke : String → List (String × Value) → Bool) (closeActs : List String) :
    List (Rec × Int × Int) → List (Report × Outcome) × List CallRec
  | [] => ([], [])
  | s :: rest =>
      let r := terminateOne dryRun svcActs invoke closeActs s
      let rr := terminateAll dryRun svcActs invoke closeActs rest
      ((r.1, r.2.1) :: rr.1, r.2.2 ++ rr.2)

theorem find?_head_eq {α : Type} (p : α → Bool) (a : α) (l : List α) (h : p a = true) :
    List.find? p (a :: l) = some a := by
  simp [List.find?, h]

theorem find?_head_ne {α : Type} (p : α → Bool) (a : α) (l : List α) (h : p a = false) :
    List.find? p (a :: l) = List.find? p l := by
  simp [List.find?, h]

/-- C1: when the dry-run flag is true the ConnectionTerminator performs no
remote invocation under any circumstance — for every service table,
invocation oracle, candidate close-action list and stale-connection set,
the list of invocations sent to the transport is empty and each stale
connection only yields the would-close report carrying its resolved
identifier and remote endpoint. -/
theorem dry_run_no_invocations (svcActs : SvcActions)
    (invoke : String → List (String × Value) → Bool) (closeActs : List String)
    (stales : List (Rec × Int × Int)) :
    (terminateAll true svcActs invoke closeActs stales).2 = [] ∧
      (terminateAll true svcActs invoke closeActs stales).1
        = stales.map (fun s => (mkReport s.1 s.2.1 s.2.2, Outcome.wouldClose)) := by
  induction stales with
  | nil => exact ⟨rfl, rfl⟩
  | cons s rest ih =>
      constructor
      · simp [terminateAll, terminateOne, ih.1]
      · simp [terminateAll, terminateOne, ih.2]

/-- C2: a mapping node whose key set intersects the hint-key set is
classified as exactly one ConnectionRecord and not recursed into, so a
tree consisting of one hint-intersecting mapping nested at any depth
inside a benign (record-free) context yields exactly that one record —
even when mappings nested inside the classified node intersect the hint
keys themselves, since its contents are arbitrary here. -/
theorem record_extractor_single_record (kvs : Rec) (fs : List Frame)
    (h1 : hitsHints kvs = true) (h2 : framesOK fs = true) :
    find_conn_nodes (Value.vmap kvs) = [kvs] ∧
      find_conn_nodes2 (Value.vmap kvs) = [kvs] ∧
      find_conn_nodes (plug (Value.vmap kvs) fs) = [kvs] := by
  have base : find_conn_nodes (Value.vmap kvs) = [kvs] := by
    simp [find_conn_nodes, h1]
  refine ⟨base, ?_, ?_⟩
  · rw [find_conn_nodes2_eq]
    exact base
  · rw [find_conn_nodes_plug fs h2]
    exact base

theorem record_extractor_single_record_witness :
    find_conn_nodes
        (plug
          (Value.vmap [("RemoteHost", Value.vstr "1.2.3.4"),
            ("Nested", Value.vmap [("ID", Value.vnum 7)])])
          [Frame.flist [Value.vstr "x"] [],
           Frame.fmap [("Count", Value.vnum 1)] "Data" []])
      = [[("RemoteHost", Value.vstr "1.2.3.4"),
          ("Nested", Value.vmap [("ID", Value.vnum 7)])]] :=
  (record_extractor_single_record
    [("RemoteHost", Value.vstr "1.2.3.4"),
     ("Nested", Value.vmap [("ID", Value.vnum 7)])]
    [Frame.flist [Value.vstr "x"] [],
     Frame.fmap [("Count", Value.vnum 1)] "Data" []]
    rfl rfl).2.2

/-- C3: the resolver returns the first exposed name (in enumeration
order) matching the first fragment (in fragment order) for which any
match exists, and returns nothing exactly when no fragment matches any
exposed name case-insensitively. -/
theorem service_resolver_first_match (S F : List String) :
    try_service S F
      = (F.find? (fun f => S.any (fun s => matchesCI s f))).bind
          (fun f => S.find? (fun s => matchesCI s f))
    ∧ (try_service S F = none ↔ ∀ f ∈ F, ∀ s ∈ S, matchesCI s f = false) := by
  refine ⟨try_service_eq S F, ?_⟩
  rw [try_service_eq S F]
  cases hF : F.find? (fun f => S.any (fun s => matchesCI s f)) with
  | none =>
      refine iff_of_true rfl ?_
      intro f hf s hs
      have hnot := List.find?_eq_none.mp hF f hf
      cases hms : matchesCI s f with
      | false => rfl
      | true => exact absurd (List.any_eq_true.mpr ⟨s, hs, hms⟩) hnot
  | some f0 =>
      have hp := List.find?_some hF
      have hmemF : f0 ∈ F := List.mem_of_find?_eq_some hF
      obtain ⟨s0, hs0, hm0⟩ := List.any_eq_true.mp hp
      cases hS : S.find? (fun s => matchesCI s f0) with
      | none => exact absurd hm0 (List.find?_eq_none.mp hS s0 hs0)
      | some s1 =>
          refine iff_of_false (by simp [hS]) ?_
          intro hall
          have hfalse := hall f0 hmemF s0 hs0
          rw [hfalse] at hm0
          exact Bool.false_ne_true hm0

theorem lexLeChars_total : ∀ x y, lexLeChars x y = true ∨ lexLeChars y x = true := by
  intro x
  induction x with
  | nil => intro y; exact Or.inl rfl
  | cons a as ih =>
      intro y
      cases y with
      | nil => exact Or.inr rfl
      | cons b bs =>
          by_cases hab : a < b
          · left; simp [lexLeChars, hab]
          · by_cases hba : b < a
            · right; simp [lexLeChars, hba]
            · have he : a = b := le_antisymm (le_of_not_lt hba) (le_of_not_lt hab)
              subst he
              rcases ih bs with h | h
              · left
                simp only [lexLeChars]
                rw [if_neg (lt_irrefl a), if_neg (lt_irrefl a)]
                exact h
              · right
                simp only [lexLeChars]
                rw [if_neg (lt_irrefl a), if_neg (lt_irrefl a)]
                exact h

theorem lexLeChars_trans :
    ∀ x y z, lexLeChars x y = true → lexLeChars y z = true → lexLeChars x z = true := by
  intro x
  induction x with
  | nil => intro y z h1 h2; rfl
  | cons a as ih =>
      intro y z h1 h2
      cases y with
      | nil => exact absurd h1 (by simp [lexLeChars])
      | cons b bs =>
          cases z with
          | nil => exact absurd h2 (by simp [lexLeChars])
          | cons c cs =>
              by_cases hab : a < b
              · by_cases hbc : b < c
                · simp [lexLeChars, lt_trans hab hbc]
                · by_cases hcb : c < b
                  · simp only [lexLeChars] at h2
                    rw [if_neg hbc, if_pos hcb] at h2
                    exact absurd h2 Bool.false_ne_true
                  · have he : b = c := le_antisymm (le_of_not_lt hcb) (le_of_not_lt hbc)
                    subst he
                    simp [lexLeChars, hab]
              · by_cases hba : b < a
                · simp only [lexLeChars] at h1
                  rw [if_neg hab, if_pos hba] at h1
                  exact absurd h1 Bool.false_ne_true
                · have he : a = b := le_antisymm (le_of_not_lt hba) (le_of_not_lt hab)
                  subst he
                  simp only [lexLeChars] at h1
                  rw [if_neg (lt_irrefl a), if_neg (lt_irrefl a)] at h1
                  by_cases hac : a < c
                  · simp [lexLeChars, hac]
                  · by_cases hca : c < a
                    · simp only [lexLeChars] at h2
                      rw [if_neg hac, if_pos hca] at h2
                      exact absurd h2 Bool.false_ne_true
                    · have he2 : a = c := le_antisymm (le_of_not_lt hca) (le_of_not_lt hac)
                      subst he2
                      simp only [lexLeChars] at h2 ⊢
                      rw [if_neg (lt_irrefl a), if_neg (lt_irrefl a)] at h2 ⊢
                      exact ih bs cs h1 h2

theorem lexLeChars_antisymm :
    ∀ x y, lexLeChars x y = true → lexLeChars y x = true → x = y := by
  intro x
  induction x with
  | nil =>
      intro y h1 h2
      cases y with
      | nil => rfl
      | cons b bs => exact absurd h2 (by simp [lexLeChars])
  | cons a as ih =>
      intro y h1 h2
      cases y with
      | nil => exact absurd h1 (by simp [lexLeChars])
      | cons b bs =>
          by_cases hab : a < b
          · simp only [lexLeChars] at h2
            rw [if_neg (lt_asymm hab), if_pos hab] at h2
            exact absurd h2 Bool.false_ne_true
          · by_cases hba : b < a
            · simp only [lexLeChars] at h1
              rw [if_neg hab, if_pos hba] at h1
              exact absurd h1 Bool.false_ne_true
            · have he : a = b := le_antisymm (le_of_not_lt hba) (le_of_not_lt hab)
              subst he
              simp only [lexLeChars] at h1 h2
              rw [if_neg (lt_irrefl a), if_neg (lt_irrefl a)] at h1 h2
              rw [ih bs h1 h2]

theorem stringDataEq {a b : String} (h : a.data = b.data) : a = b := by
  cases a
  cases b
  simp_all

instance : IsTotal (String × String) pairLe where
  total := by
    intro a b
    unfold pairLe pairLeB
    by_cases h : a.1.data = b.1.data
    · rw [if_pos h, if_pos h.symm]
      exact lexLeChars_total _ _
    · rw [if_neg h, if_neg (fun he => h he.symm)]
      exact lexLeChars_total _ _

instance : IsTrans (String × String) pairLe where
  trans := by
    intro a b c h1 h2
    unfold pairLe pairLeB at h1 h2 ⊢
    by_cases hab : a.1.data = b.1.data
    · by_cases hbc : b.1.data = c.1.data
      · rw [if_pos hab] at h1
        rw [if_pos hbc] at h2
        rw [if_pos (hab.trans hbc)]
        exact lexLeChars_trans _ _ _ h1 h2
      · rw [if_pos hab] at h1
        rw [if_neg hbc] at h2
        have hac : ¬ a.1.data = c.1.data := fun he => hbc (hab.symm.trans he)
        rw [if_neg hac, hab]
        exact h2
    · by_cases hbc : b.1.data = c.1.data
      · rw [if_neg hab] at h1
        rw [if_pos hbc] at h2
        have hac : ¬ a.1.data = c.1.data := fun he => hab (he.trans hbc.symm)
        rw [if_neg hac, ← hbc]
        exact h1
      · rw [if_neg hab] at h1
        rw [if_neg hbc] at h2
        by_cases hac : a.1.data = c.1.data
        · rw [hac] at h1
          exact absurd (lexLeChars_antisymm _ _ h2 h1) hbc
        · rw [if_neg hac]
          exact lexLeChars_trans _ _ _ h1 h2

instance : IsAntisymm (String × String) pairLe where
  antisymm := by
    intro a b h1 h2
    unfold pairLe pairLeB at h1 h2
    by_cases hab : a.1.data = b.1.data
    · rw [if_pos hab] at h1
      rw [if_pos hab.symm] at h2
      have h2nd := lexLeChars_antisymm _ _ h1 h2
      have e1 : a.1 = b.1 := stringDataEq hab
      have e2 : a.2 = b.2 := stringDataEq h2nd
      cases a
      cases b
      simp_all
    · rw [if_neg hab] at h1
      rw [if_neg (fun he => hab he.symm)] at h2
      exact absurd (lexLeChars_antisymm _ _ h1 h2) hab

theorem connKey_perm (r1 r2 : Rec) (h : r1.Perm r2) : connKey r1 = connKey r2 := by
  unfold connKey
  exact List.eq_of_perm_of_sorted
    (((List.perm_insertionSort pairLe _).trans
        (h.map (fun kv => (kv.1, pyStr kv.2)))).trans
      (List.perm_insertionSort pairLe _).symm)
    (List.sorted_insertionSort pairLe _)
    (List.sorted_insertionSort pairLe _)

theorem dedupAux_sublist (cs : List Rec) :
    ∀ seen, (dedupAux seen cs).Sublist cs := by
  induction cs with
  | nil => intro seen; simp [dedupAux]
  | cons c rest ih =>
      intro seen
      by_cases h : connKey c ∈ seen
      · rw [dedupAux, if_pos h]
        exact (ih seen).trans (List.sublist_cons_self c rest)
      · rw [dedupAux, if_neg h]
        exact List.Sublist.cons₂ c (ih _)

theorem dedupAux_nodup (cs : List Rec) :
    ∀ seen, ((dedupAux seen cs).map connKey).Nodup
      ∧ ∀ c' ∈ dedupAux seen cs, connKey c' ∉ seen := by
  induction cs with
  | nil =>
      intro seen
      exact ⟨List.nodup_nil, fun c' hc' => absurd hc' (by simp [dedupAux])⟩
  | cons c rest ih =>
      intro seen
      by_cases h : connKey c ∈ seen
      · have := ih seen
        simpa [dedupAux, h] using this
      · have ihr := ih (connKey c :: seen)
        have hk : ∀ k ∈ (dedupAux (connKey c :: seen) rest).map connKey,
            k ≠ connKey c ∧ k ∉ seen := by
          intro k hkmem
          obtain ⟨c', hc', hkey⟩ := List.mem_map.mp hkmem
          have hnotin := ihr.2 c' hc'
          subst hkey
          refine ⟨fun he => hnotin ?_, fun hs => hnotin (List.mem_cons_of_mem _ hs)⟩
          rw [he]
          exact List.mem_cons_self _ _
        constructor
        · rw [dedupAux, if_neg h, List.map_cons, List.nodup_cons]
          exact ⟨fun hmem => (hk _ hmem).1 rfl, ihr.1⟩
        · intro c' hc'
          rw [dedupAux, if_neg h, List.mem_cons] at hc'
          rcases hc' with rfl | hc'
          · exact h
          · exact fun hs => ihr.2 c' hc' (List.mem_cons_of_mem _ hs)

theorem dedupAux_covers (cs : List Rec) (c : Rec) :
    ∀ seen, c ∈ cs →
      connKey c ∈ seen ∨ connKey c ∈ (dedupAux seen cs).map connKey := by
  induction cs with
  | nil => intro seen hc; cases hc
  | cons d rest ih =>
      intro seen hc
      by_cases h : connKey d ∈ seen
      · rw [dedupAux, if_pos h]
        rcases List.mem_cons.mp hc with rfl | hmem
        · exact Or.inl h
        · exact ih seen hmem
      · rw [dedupAux, if_neg h]
        rcases List.mem_cons.mp hc with rfl | hmem
        · refine Or.inr ?_
          rw [List.map_cons]
          exact List.mem_cons_self _ _
        · rcases ih (connKey d :: seen) hmem with hseen | hout
          · rcases List.mem_cons.mp hseen with heq | hseen2
            · refine Or.inr ?_
              rw [List.map_cons, heq]
              exact List.mem_cons_self _ _
            · exact Or.inl hseen2
          · refine Or.inr ?_
            rw [List.map_cons]
            exact List.mem_cons_of_mem _ hout

theorem dedupAux_first (cs : List Rec) :
    ∀ seen, ∀ c' ∈ dedupAux seen cs,
      cs.find? (fun c => decide (connKey c = connKey c')) = some c' := by
  induction cs with
  | nil => intro seen c' hc'; simp [dedupAux] at hc'
  | cons d rest ih =>
      intro seen c' hc'
      by_cases h : connKey d ∈ seen
      · rw [dedupAux, if_pos h] at hc'
        have hnotin := (dedupAux_nodup rest seen).2 c' hc'
        have hne : (fun c => decide (connKey c = connKey c')) d = false := by
          simp only [decide_eq_false_iff_not]
          intro he
          exact hnotin (he ▸ h)
        rw [find?_head_ne (fun c => decide (connKey c = connKey c')) d rest hne]
        exact ih seen c' hc'
      · rw [dedupAux, if_neg h] at hc'
        rcases List.mem_cons.mp hc' with rfl | htail
        · exact find?_head_eq _ _ _ (by simp)
        · have hnotin := (dedupAux_nodup rest (connKey d :: seen)).2 c' htail
          have hne : (fun c => decide (connKey c = connKey c')) d = false := by
            simp only [decide_eq_false_iff_not]
            intro he
            refine hnotin ?_
            rw [← he]
            exact List.mem_cons_self _ _
          rw [find?_head_ne (fun c => decide (connKey c = connKey c')) d rest hne]
          exact ih (connKey d :: seen) c' htail

/-- C4: the canonical key is the (fieldName, stringified value) pair list
in sorted order, so records with the same field/value multiset get the
same key regardless of field order or source action; the Deduplicator
emits only the first record per key, in first-seen (sublist) order, and
its output is pairwise distinct by field/value content. -/
theorem dedup_canonical :
    (∀ c : Rec, (connKey c).Perm (c.map (fun kv => (kv.1, pyStr kv.2)))
      ∧ List.Sorted pairLe (connKey c)) ∧
    (∀ r1 r2 : Rec, r1.Perm r2 → connKey r1 = connKey r2) ∧
    (∀ cs : List Rec, ((dedupRecords cs).map connKey).Nodup) ∧
    (∀ cs : List Rec, (dedupRecords cs).Pairwise (fun r1 r2 => ¬ r1.Perm r2)) ∧
    (∀ cs : List Rec, (dedupRecords cs).Sublist cs) ∧
    (∀ cs : List Rec, ∀ c ∈ cs, connKey c ∈ (dedupRecords cs).map connKey) ∧
    (∀ cs : List Rec, ∀ c' ∈ dedupRecords cs,
      cs.find? (fun c => decide (connKey c = connKey c')) = some c') := by
  have hperm : ∀ r1 r2 : Rec, r1.Perm r2 → connKey r1 = connKey r2 := connKey_perm
  have hnodup : ∀ cs : List Rec, ((dedupRecords cs).map connKey).Nodup :=
    fun cs => (dedupAux_nodup cs []).1
  refine ⟨?_, hperm, hnodup, ?_, ?_, ?_, ?_⟩
  · intro c
    exact ⟨List.perm_insertionSort pairLe _, List.sorted_insertionSort pairLe _⟩
  · intro cs
    have := List.pairwise_map.mp (hnodup cs)
    exact this.imp (fun hne hp => hne (hperm _ _ hp))
  · intro cs
    exact dedupAux_sublist cs []
  · intro cs c hc
    rcases dedupAux_covers cs c [] hc with hin | hin
    · cases hin
    · exact hin
  · intro cs c' hc'
    exact dedupAux_first cs [] c' hc'

example :
    dedupRecords [[("a", Value.vstr "1"), ("b", Value.vstr "2")],
      [("b", Value.vstr "2"), ("a", Value.vstr "1")],
      [("a", Value.vstr "1"), ("b", Value.vstr "2")]]
      = [[("a", Value.vstr "1"), ("b", Value.vstr "2")]] := rfl

theorem stalenessEval_fst_sublist (threshold now : Int) (cs : List Rec) :
    ((stalenessEval threshold now cs).map (fun x => x.1)).Sublist cs := by
  induction cs with
  | nil => simp [stalenessEval]
  | cons c rest ih =>
      simp only [stalenessEval, List.filterMap_cons] at ih ⊢
      cases hf : staleCheck threshold now c with
      | none =>
          simp only [hf]
          exact ih.trans (List.sublist_cons_self c rest)
      | some x =>
          have hx : x.1 = c := by
            simp only [staleCheck] at hf
            cases hp : parse_time_str (pickTimeField c time_fields) with
            | none =>
                simp only [hp] at hf
                exact Option.noConfusion hf
            | some ts =>
                simp only [hp] at hf
                by_cases hle : threshold ≤ now - ts
                · rw [if_pos hle] at hf
                  injection hf with h2
                  rw [← h2]
                · rw [if_neg hle] at hf
                  exact Option.noConfusion hf
          simp only [hf, List.map_cons]
          rw [hx]
          exact List.Sublist.cons₂ c ih

/-- C5: a record whose resolved timestamp field parses to `ts` is put in
the stale set if and only if `now - ts ≥ threshold`, carrying the
computed integer age `now - ts`, and the stale output preserves the
relative order of the input records. -/
theorem staleness_threshold_rule (threshold now ts : Int) (c : Rec)
    (h : parse_time_str (pickTimeField c time_fields) = some ts) :
    (staleCheck threshold now c = some (c, ts, now - ts) ↔ threshold ≤ now - ts) ∧
      (staleCheck threshold now c = none ↔ now - ts < threshold) ∧
      ∀ cs : List Rec,
        ((stalenessEval threshold now cs).map (fun x => x.1)).Sublist cs := by
  have hc : staleCheck threshold now c
      = if threshold ≤ now - ts then some (c, ts, now - ts) else none := by
    rw [staleCheck, h]
  refine ⟨?_, ?_, stalenessEval_fst_sublist threshold now⟩
  · rw [hc]
    by_cases hle : threshold ≤ now - ts
    · simp [hle]
    · simp [hle]
  · rw [hc]
    by_cases hle : threshold ≤ now - ts
    · simp only [if_pos hle]
      refine iff_of_false (by simp) (by simpa using hle)
    · simp only [if_neg hle]
      exact iff_of_true trivial (by simpa using hle)

theorem staleness_threshold_rule_witness :
    staleCheck 3600 200000 [("LastActivity", Value.vnum 100000)]
      = some ([("LastActivity", Value.vnum 100000)], 100000, 100000) :=
  (staleness_threshold_rule 3600 200000 100000
    [("LastActivity", Value.vnum 100000)] rfl).1.mpr (by decide)

theorem pickTimeField_eq (c : Rec) (fs : List String) :
    pickTimeField c fs
      = (fs.find? (fun f => hasField c f)).bind (fun f => dictGet c f) := by
  induction fs with
  | nil => rfl
  | cons f rest ih =>
      by_cases h : hasField c f = true
      · rw [pickTimeField, if_pos h, find?_head_eq _ _ _ h, Option.some_bind]
      · have hf : hasField c f = false := by
          cases hv : hasField c f
          · rfl
          · exact absurd hv h
        rw [pickTimeField, if_neg h, find?_head_ne _ _ _ hf]
        exact ih

/-- C6: the timestamp source is the value of the first present field
among LastActivity, LastActive, LastSeen, Time, Timestamp; a record where
all five are absent, or whose chosen value parses neither as integer
epoch seconds nor via the fixed ordered format list, is excluded from the
staleness evaluation entirely for every clock and threshold. -/
theorem timestamp_resolution_and_exclusion (c : Rec) :
    (pickTimeField c time_fields
        = (time_fields.find? (fun f => hasField c f)).bind (fun f => dictGet c f)) ∧
      ((∀ f ∈ time_fields, hasField c f = false) →
        ∀ threshold now : Int, staleCheck threshold now c = none) ∧
      (parse_time_str (pickTimeField c time_fields) = none →
        ∀ threshold now : Int, staleCheck threshold now c = none) := by
  have habs : parse_time_str (pickTimeField c time_fields) = none →
      ∀ threshold now : Int, staleCheck threshold now c = none := by
    intro hp threshold now
    rw [staleCheck, hp]
  refine ⟨pickTimeField_eq c time_fields, ?_, habs⟩
  intro hall threshold now
  have hfind : time_fields.find? (fun f => hasField c f) = none :=
    List.find?_eq_none.mpr (fun f hf => by simp [hall f hf])
  have hnone : pickTimeField c time_fields = none := by
    rw [pickTimeField_eq, hfind, Option.none_bind]
  refine habs ?_ threshold now
  rw [hnone]
  rfl

theorem timestamp_resolution_and_exclusion_witness :
    staleCheck 3600 999999 [("Foo", Value.vstr "x")] = none ∧
      staleCheck 3600 999999 [("Time", Value.vstr "not-a-date")] = none :=
  ⟨(timestamp_resolution_and_exclusion [("Foo", Value.vstr "x")]).2.1
      (by decide) 3600 999999,
   (timestamp_resolution_and_exclusion [("Time", Value.vstr "not-a-date")]).2.2
      rfl 3600 999999⟩

/-- Python truthiness of an optional lookup result (`if connid:` where
`connid` may be `None`). -/
def optTruthy : Option Value → Bool
  | some v => truthy v
  | none => false

/-- Claim C7's reading of identifier resolution, stated for comparison
with the code: the value of the first *present* field among ConnectionID,
Id, ID, ignoring truthiness. -/
def firstPresentField (c : Rec) : Option Value :=
  match dictGet c "ConnectionID" with
  | some v => some v
  | none =>
      match dictGet c "Id" with
      | some v => some v
      | none => dictGet c "ID"

theorem addIdKeys_eq (params : List String) (cv : Value) (ks : List String) :
    addIdKeys params cv ks
      = (ks.filter (fun k => params.contains k)).map (fun k => (k, cv)) := by
  induction ks with
  | nil => rfl
  | cons k rest ih =>
      by_cases h : params.contains k = true
      · rw [addIdKeys, if_pos h, List.filter_cons_of_pos h, List.map_cons, ih]
      · have hf : params.contains k = false := by
          cases hv : params.contains k
          · rfl
          · exact absurd hv h
        rw [addIdKeys, if_neg h, List.filter_cons_of_neg (by exact h), ih]

/-- C7 (amended): the identifier used for closing is the first of
ConnectionID, Id, ID whose value is present *and truthy* (a present but
empty identifier is passed over); when no identifier is truthy the
endpoint fallback is used; and when the action's declared parameter
schema contains any of ConnectionID, ID, Id, the identifier is bound
under *every* such declared name (probed in that order), falling back to
the single guessed name ConnectionID when none of the three is declared —
in particular when the schema is unknown or empty. -/
theorem close_identifier_binding :
    (∀ c : Rec, optTruthy (dictGet c "ConnectionID") = true →
      resolveConnId c = dictGet c "ConnectionID") ∧
    (∀ c : Rec, optTruthy (dictGet c "ConnectionID") = false →
      optTruthy (dictGet c "Id") = true →
      resolveConnId c = dictGet c "Id") ∧
    (∀ c : Rec, optTruthy (dictGet c "ConnectionID") = false →
      optTruthy (dictGet c "Id") = false →
      resolveConnId c = dictGet c "ID") ∧
    (∀ c : Rec, ∀ params : List String, ∀ remote port : Value,
      optTruthy (resolveConnId c) = false →
      buildArgs params (resolveConnId c) remote port
        = fallbackEndpointArgs remote port) ∧
    (∀ params : List String, ∀ cv remote port : Value, truthy cv = true →
      buildArgs params (some cv) remote port
        = (if (id_fields_try.filter (fun k => params.contains k)).isEmpty
            then [("ConnectionID", cv)]
            else (id_fields_try.filter (fun k => params.contains k)).map
              (fun k => (k, cv)))) := by
  refine ⟨?_, ?_, ?_, ?_, ?_⟩
  · intro c h
    cases hg : dictGet c "ConnectionID" with
    | none => rw [hg] at h; exact absurd h Bool.false_ne_true
    | some v =>
        rw [hg] at h
        rw [resolveConnId, hg, pyOr]
        simp only [optTruthy] at h
        rw [if_pos h]
  · intro c h1 h2
    cases hg2 : dictGet c "Id" with
    | none => rw [hg2] at h2; exact absurd h2 Bool.false_ne_true
    | some v =>
        rw [hg2] at h2
        simp only [optTruthy] at h2
        rw [resolveConnId, hg2]
        cases hg1 : dictGet c "ConnectionID" with
        | none => rw [pyOr, pyOr, if_pos h2]
        | some w =>
            rw [hg1] at h1
            simp only [optTruthy] at h1
            rw [pyOr, if_neg (by rw [h1]; exact Bool.false_ne_true), pyOr, if_pos h2]
  · intro c h1 h2
    rw [resolveConnId]
    cases hg1 : dictGet c "ConnectionID" with
    | none =>
        rw [pyOr]
        cases hg2 : dictGet c "Id" with
        | none => rw [pyOr]
        | some v =>
            rw [hg2] at h2
            simp only [optTruthy] at h2
            rw [pyOr, if_neg (by rw [h2]; exact Bool.false_ne_true)]
    | some w =>
        rw [hg1] at h1
        simp only [optTruthy] at h1
        rw [pyOr, if_neg (by rw [h1]; exact Bool.false_ne_true)]
        cases hg2 : dictGet c "Id" with
        | none => rw [pyOr]
        | some v =>
            rw [hg2] at h2
            simp only [optTruthy] at h2
            rw [pyOr, if_neg (by rw [h2]; exact Bool.false_ne_true)]
  · intro c params remote port h
    cases hg : resolveConnId c with
    | none => rw [buildArgs]
    | some v =>
        rw [hg] at h
        simp only [optTruthy] at h
        rw [buildArgs, if_neg (by rw [h]; exact Bool.false_ne_true)]
  · intro params cv remote port h
    rw [buildArgs, if_pos h, addIdKeys_eq]
    by_cases he : ((id_fields_try.filter (fun k => params.contains k)).map
        (fun k => (k, cv))).isEmpty = true
    · rw [if_pos he]
      have he2 : (id_fields_try.filter (fun k => params.contains k)).isEmpty = true := by
        cases hl : id_fields_try.filter (fun k => params.contains k) with
        | nil => rfl
        | cons a l => rw [hl] at he; exact absurd he (by simp)
      rw [if_pos he2]
    · rw [if_neg he]
      have he2 : ¬ (id_fields_try.filter (fun k => params.contains k)).isEmpty = true := by
        intro hl
        refine he ?_
        cases hc : id_fields_try.filter (fun k => params.contains k) with
        | nil => rfl
        | cons a l => rw [hc] at hl; exact absurd hl (by simp)
      rw [if_neg he2]

theorem close_identifier_binding_witness :
    resolveConnId [("Id", Value.vstr "9")] = some (Value.vstr "9") ∧
      buildArgs [] (some (Value.vstr "9")) (Value.vstr "h") (Value.vstr "80")
        = [("ConnectionID", Value.vstr "9")] ∧
      buildArgs ["NewConnectionID", "ConnectionID", "ID"] (some (Value.vstr "9"))
          (Value.vstr "h") (Value.vstr "80")
        = [("ConnectionID", Value.vstr "9"), ("ID", Value.vstr "9")] :=
  ⟨close_identifier_binding.2.1 [("Id", Value.vstr "9")] rfl rfl,
   close_identifier_binding.2.2.2.2 [] (Value.vstr "9") (Value.vstr "h")
     (Value.vstr "80") rfl,
   close_identifier_binding.2.2.2.2 ["NewConnectionID", "ConnectionID", "ID"]
     (Value.vstr "9") (Value.vstr "h") (Value.vstr "80") rfl⟩

/-- C7 counterexample: with ConnectionID present but empty and Id
present and non-empty, the script resolves the identifier from Id — not
from the first *present* field as the claim states; and with a schema
declaring both ConnectionID and ID, the identifier is bound under both
names, not only under the first declared one. -/
theorem close_identifier_binding_cex :
    firstPresentField [("ConnectionID", Value.vstr ""), ("Id", Value.vstr "5")]
        = some (Value.vstr "") ∧
      resolveConnId [("ConnectionID", Value.vstr ""), ("Id", Value.vstr "5")]
        = some (Value.vstr "5") ∧
      Value.vstr "" ≠ Value.vstr "5" ∧
      buildArgs ["ConnectionID", "ID"] (some (Value.vstr "7"))
          (Value.vstr "") (Value.vstr "")
        = [("ConnectionID", Value.vstr "7"), ("ID", Value.vstr "7")] ∧
      [("ConnectionID", Value.vstr "7"), ("ID", Value.vstr "7")]
        ≠ [("ConnectionID", Value.vstr "7")] := by
  refine ⟨rfl, rfl, ?_, rfl, ?_⟩
  · intro h
    injection h with h2
    exact absurd h2 (by decide)
  · intro h
    exact absurd (congrArg List.length h) (by decide)

/-- A candidate close action succeeds for a record: it is declared in the
service's known action set and its invocation with the bound arguments
returns success. -/
def closeSucceeds (svcActs : SvcActions)
    (invoke : String → List (String × Value) → Bool) (c : Rec) (a : String) : Bool :=
  match lookupParams svcActs a with
  | some params =>
      invoke a (buildArgs params (resolveConnId c) (resolveRemote c) (resolvePort c))
  | none => false

/-- C8: in live mode the candidate close actions are tried in ranked
order and the first success wins (the outcome records the action used);
when every candidate fails or none is applicable the outcome is "could
not close"; and the terminator produces exactly one outcome per stale
connection for every oracle — a termination failure never aborts the
run. -/
theorem close_first_success_wins (svcActs : SvcActions)
    (invoke : String → List (String × Value) → Bool) (c : Rec) (acts : List String) :
    ((attemptClose svcActs invoke c acts).1
        = match acts.find? (closeSucceeds svcActs invoke c) with
          | some a => Outcome.closedVia a
          | none => Outcome.notClosed) ∧
      ((∀ a ∈ acts, closeSucceeds svcActs invoke c a = false) →
        (attemptClose svcActs invoke c acts).1 = Outcome.notClosed) ∧
      ∀ dryRun closeActs stales,
        ((terminateAll dryRun svcActs invoke closeActs stales).1).length
          = stales.length := by
  have hmain : (attemptClose svcActs invoke c acts).1
      = match acts.find? (closeSucceeds svcActs invoke c) with
        | some a => Outcome.closedVia a
        | none => Outcome.notClosed := by
    induction acts with
    | nil => rfl
    | cons a rest ih =>
        cases hl : lookupParams svcActs a with
        | none =>
            have hs : closeSucceeds svcActs invoke c a = false := by
              simp only [closeSucceeds, hl]
            rw [attemptClose, hl, find?_head_ne _ _ _ hs]
            exact ih
        | some params =>
            cases hi : invoke a
                (buildArgs params (resolveConnId c) (resolveRemote c) (resolvePort c)) with
            | true =>
                have hs : closeSucceeds svcActs invoke c a = true := by
                  simp only [closeSucceeds, hl]
                  exact hi
                rw [attemptClose, hl, find?_head_eq _ _ _ hs]
                simp only [hi, if_true]
            | false =>
                have hs : closeSucceeds svcActs invoke c a = false := by
                  simp only [closeSucceeds, hl]
                  exact hi
                rw [attemptClose, hl, find?_head_ne _ _ _ hs]
                simp only [hi, Bool.false_eq_true, if_false]
                exact ih
  refine ⟨hmain, ?_, ?_⟩
  · intro hall
    rw [hmain, List.find?_eq_none.mpr (fun a ha => by simp [hall a ha])]
  · intro dryRun closeActs stales
    induction stales with
    | nil => rfl
    | cons s rest ih => simp [terminateAll, ih]

theorem close_first_success_wins_witness :
    (attemptClose [("CloseConnection", ["ID"])]
        (fun _ _ => false) [("ID", Value.vstr "3")] close_actions).1
      = Outcome.notClosed :=
  (close_first_success_wins [("CloseConnection", ["ID"])]
    (fun _ _ => false) [("ID", Value.vstr "3")] close_actions).2.1
    (by decide)

/-- C9: the ActionCollector attempts every candidate read action with a
parameterless invocation — including actions not declared in the
service's known action set — absorbs every failure, and accumulates all
successful extractions in candidate-list order without suppressing
duplicates: the result is exactly the concatenation, over the candidates
in order, of the records extracted from each successful result. -/
theorem action_collector_union (svcActs : SvcActions) (invoke : String → Option Value)
    (acts : List String) :
    (collectRecords svcActs invoke acts).2 = acts ∧
      (collectRecords svcActs invoke acts).1
        = acts.flatMap (fun act =>
            match invoke act with
            | some res => find_conn_nodes res
            | none => []) := by
  induction acts with
  | nil => exact ⟨rfl, rfl⟩
  | cons act rest ih =>
      constructor
      · simp only [collectRecords]
        rw [ih.1]
      · simp only [collectRecords, List.flatMap_cons]
        rw [ih.2]
        by_cases hd : (lookupParams svcActs act).isSome = true
        · rw [if_pos hd]
        · rw [if_neg hd]
          cases hi : invoke act with
          | none => rfl
          | some res => simp [find_conn_nodes2_eq]

/-- C10: record recognition and timestamp-field resolution match field
names exactly and case-sensitively: a mapping none of whose keys is
exactly a hint key — e.g. the lower-case variants "remotehost",
"lastactivity" — is recursed into rather than classified as a
ConnectionRecord, and a record with no exactly-matching timestamp field
yields no timestamp source; service-name matching, by contrast, is
case-insensitive. -/
theorem exact_field_matching (m c : Rec)
    (h1 : hitsHints m = false) (h2 : ∀ f ∈ time_fields, hasField c f = false) :
    find_conn_nodes (Value.vmap m) = find_conn_nodes_vals m ∧
      pickTimeField c time_fields = none ∧
      hitsHints [("remotehost", Value.vstr "1.2.3.4"),
        ("lastactivity", Value.vnum 0)] = false ∧
      (∀ f ∈ time_fields, hasField [("lastactivity", Value.vnum 0)] f = false) ∧
      matchesCI "WANIPConnection1" "wanipconnection" = true := by
  refine ⟨?_, ?_, rfl, by decide, rfl⟩
  · simp [find_conn_nodes, h1]
  · rw [pickTimeField_eq,
      List.find?_eq_none.mpr (fun f hf => by simp [h2 f hf]), Option.none_bind]

theorem exact_field_matching_witness :
    find_conn_nodes (Value.vmap [("remotehost", Value.vstr "1.2.3.4")])
      = find_conn_nodes_vals [("remotehost", Value.vstr "1.2.3.4")] ∧
      pickTimeField [("lastactivity", Value.vnum 5)] time_fields = none :=
  ⟨(exact_field_matching [("remotehost", Value.vstr "1.2.3.4")]
      [("lastactivity", Value.vnum 5)] rfl (by decide)).1,
   (exact_field_matching [("remotehost", Value.vstr "1.2.3.4")]
      [("lastactivity", Value.vnum 5)] rfl (by decide)).2.1⟩

end FritzCleanup
